import Mathlib

/-!
Verification of the `her` font core and its two in-tree consumers:
the canvas code generator `src/bin/lato_glyphs.rs` and the renderer state
`src/renderer/state.rs`.  The font library itself (parser, outline decoder,
shaper) is not part of the source tree here; where a definition embeds that
missing library code it is modelled from the specification and marked so in
its doc comment.
-/

namespace Iris

/-- Errors of the font core, following the spec's error taxonomy (§7) together
with the two compound-resolution errors the spec requires (§3, §5, §8). -/
inductive FormatError where
  | badMagic
  | missingTable (tag : String)
  | truncatedBuffer
  | invalidGlyphIndex
  | malformedGlyph
  | malformedTable
  | unsupportedCompoundEncoding
  | selfReferencingGlyph
  | recursionDepthExceeded
deriving DecidableEq

/-- Canvas/path commands: the JavaScript canvas calls emitted by
`lato_glyphs.rs` together with the quadraticCurveTo command of the
path-command contract (§4.5).  Path coordinates are rationals so that implied
midpoints are exact. -/
inductive Stmt where
  | translate (dx dy : Int)
  | scale (sx sy : Rat)
  | beginPath
  | moveTo (x y : Rat)
  | lineTo (x y : Rat)
  | quadraticCurveTo (cx cy x y : Rat)
  | closePath
  | lineWidth (w : Nat)
  | stroke
deriving DecidableEq

/-- SimpleGlyphData (§3): endpoint indices into `coordinates`, absolute
font-unit coordinates, and the per-point on-curve flags. -/
structure SimpleGlyph where
  end_points_of_contours : List Nat
  coordinates : List (Int × Int)
  flags : List Bool
deriving DecidableEq

/-- Modelled from the spec: the library's `on_curve` accessor is not under
src/; a Point carries an on-curve flag (§3), read here from the flags list. -/
def SimpleGlyph.on_curve (sg : SimpleGlyph) (i : Nat) : Bool :=
  sg.flags.getD i false

/-- Component of a compound glyph (§3). -/
structure Component where
  glyphIndex : Nat
  dx : Int
  dy : Int
  transform : Option (Rat × Rat × Rat × Rat)
deriving DecidableEq

/-- CompoundGlyphData (§3): the ordered component sequence. -/
structure CompoundGlyphData where
  components : List Component
deriving DecidableEq

/-- GlyphData (§3): tagged union Simple / Compound / Empty. -/
inductive GlyphData where
  | simple (sg : SimpleGlyph)
  | compound (cgd : CompoundGlyphData)
  | empty
deriving DecidableEq

/-- GlyphDescription (§3): the bounding box. -/
structure GlyphDescription where
  xMin : Int
  yMin : Int
  xMax : Int
  yMax : Int
deriving DecidableEq

/-- Width of the bounding box (§3: width = xMax − xMin). -/
def GlyphDescription.width (d : GlyphDescription) : Int := d.xMax - d.xMin

/-- Height of the bounding box (§3: height = yMax − yMin). -/
def GlyphDescription.height (d : GlyphDescription) : Int := d.yMax - d.yMin

/-- Glyph (§3). -/
structure Glyph where
  id : Nat
  description : GlyphDescription
  data : GlyphData
  advanceWidth : Nat
  leftSideBearing : Int
deriving DecidableEq

/-- Modelled from the spec: `glyph.is_simple()` (§6) is library code not under
src/; per claim C8's hypothesis it holds exactly when the glyph's data is the
Simple variant. -/
def Glyph.is_simple (g : Glyph) : Bool :=
  match g.data with
  | GlyphData.simple _ => true
  | _ => false

/-- Result of `draw_glyph_to_canvas`: the todo! panic on non-simple glyphs, an
error propagated from `interpolate_with_prev`, or the emitted command list. -/
inductive DrawOut (ε α : Type) where
  | panics
  | error (e : ε)
  | ok (a : α)
deriving DecidableEq

/-- Modelled from the spec: the decoder (not under src/) guarantees (§8, §3)
strictly increasing endPointsOfContours whose last entry is
`len(coordinates) − 1`. -/
def SimpleGlyph.WF (sg : SimpleGlyph) : Prop :=
  List.Pairwise (· < ·) sg.end_points_of_contours ∧
  sg.coordinates.length =
    (match sg.end_points_of_contours.getLast? with
     | none => sg.coordinates.length
     | some e => e + 1)

/-- The inner while loop of `draw_glyph_to_canvas` (lato_glyphs.rs:47-72) as a
fold over the visited indices `start_index+1 .. end_index`.  The
`interpolate_with_prev` call is abstracted as `ipw`; its value is pushed onto
the never-read `implicit_on_curve_points` vector, so only its error effect
remains. -/
def drawContourLoop {ε : Type} (sg : SimpleGlyph)
    (ipw : SimpleGlyph → Nat → Except ε (Rat × Rat)) : List Nat → Except ε (List Stmt)
  | [] => Except.ok []
  | i :: rest =>
    if sg.on_curve (i - 1) && sg.on_curve i then
      match ipw sg i with
      | Except.error e => Except.error e
      | Except.ok _ =>
        match drawContourLoop sg ipw rest with
        | Except.error e => Except.error e
        | Except.ok l =>
          Except.ok (Stmt.lineTo ((sg.coordinates.getD i (0, 0)).1 : Int)
            ((sg.coordinates.getD i (0, 0)).2 : Int) :: l)
    else
      match drawContourLoop sg ipw rest with
      | Except.error e => Except.error e
      | Except.ok l =>
        Except.ok (Stmt.lineTo ((sg.coordinates.getD i (0, 0)).1 : Int)
          ((sg.coordinates.getD i (0, 0)).2 : Int) :: l)

/-- The per-contour loop of `draw_glyph_to_canvas` (lato_glyphs.rs:37-77):
moveTo the contour's first point, the inner loop over the remaining indices,
closePath, then the next contour starting at `end_index + 1`. -/
def drawContours {ε : Type} (sg : SimpleGlyph)
    (ipw : SimpleGlyph → Nat → Except ε (Rat × Rat)) : Nat → List Nat → Except ε (List Stmt)
  | _, [] => Except.ok []
  | start, e :: rest =>
    match drawContourLoop sg ipw (List.range' (start + 1) (e - start)) with
    | Except.error er => Except.error er
    | Except.ok body =>
      match drawContours sg ipw (e + 1) rest with
      | Except.error er => Except.error er
      | Except.ok more =>
        Except.ok (Stmt.moveTo ((sg.coordinates.getD start (0, 0)).1 : Int)
          ((sg.coordinates.getD start (0, 0)).2 : Int) :: body ++ Stmt.closePath :: more)

/-- `draw_glyph_to_canvas` (lato_glyphs.rs:22-83) with the
`interpolate_with_prev` call abstracted as `ipw`: non-simple glyph data hits
the todo! branch; otherwise translate, scale and beginPath, the contours, then
lineWidth and stroke. -/
def drawGlyphWith {ε : Type} (ipw : SimpleGlyph → Nat → Except ε (Rat × Rat))
    (glyph : Glyph) (key : Nat) : DrawOut ε (List Stmt) :=
  match glyph.data with
  | GlyphData.simple sg =>
    match drawContours sg ipw 0 sg.end_points_of_contours with
    | Except.error e => DrawOut.error e
    | Except.ok body =>
      DrawOut.ok (Stmt.translate 0 (glyph.description.height - 300)
        :: Stmt.scale (1 / 2) (-(1 / 2)) :: Stmt.beginPath
        :: body ++ [Stmt.lineWidth 9, Stmt.stroke])
  | _ => DrawOut.panics

/-- Modelled from the spec: `SimpleGlyphData.interpolate_with_prev` is not
under src/; §4.5 specifies the deterministic midpoint of a point and its
predecessor, and the call site in the source treats it as fallible. -/
def SimpleGlyph.interpolate_with_prev (sg : SimpleGlyph) (i : Nat) :
    Except FormatError (Rat × Rat) :=
  Except.ok ((((sg.coordinates.getD (i - 1) (0, 0)).1 : Rat)
      + ((sg.coordinates.getD i (0, 0)).1 : Rat)) / 2,
    (((sg.coordinates.getD (i - 1) (0, 0)).2 : Rat)
      + ((sg.coordinates.getD i (0, 0)).2 : Rat)) / 2)

/-- `draw_glyph_to_canvas` proper: the loop instantiated with the glyph's own
interpolation. -/
def draw_glyph_to_canvas (glyph : Glyph) (key : Nat) : DrawOut FormatError (List Stmt) :=
  drawGlyphWith (fun sg i => sg.interpolate_with_prev i) glyph key

/-- The straight-line command the inner loop emits for point `i`. -/
def lineCmd (sg : SimpleGlyph) (i : Nat) : Stmt :=
  Stmt.lineTo ((sg.coordinates.getD i (0, 0)).1 : Int) ((sg.coordinates.getD i (0, 0)).2 : Int)

/-- Expected commands of one contour: one moveTo at its first point, a lineTo
per subsequent point up to the end index, then closePath. -/
def contourCmds (sg : SimpleGlyph) (start e : Nat) : List Stmt :=
  Stmt.moveTo ((sg.coordinates.getD start (0, 0)).1 : Int)
      ((sg.coordinates.getD start (0, 0)).2 : Int)
    :: (List.range' (start + 1) (e - start)).map (lineCmd sg) ++ [Stmt.closePath]

/-- Expected contour commands for a whole endpoint list. -/
def contoursCmds (sg : SimpleGlyph) : Nat → List Nat → List Stmt
  | _, [] => []
  | start, e :: rest => contourCmds sg start e ++ contoursCmds sg (e + 1) rest

/-- Indices visited by the inner loop across all contours. -/
def visitedIndices : Nat → List Nat → List Nat
  | _, [] => []
  | start, e :: rest => List.range' (start + 1) (e - start) ++ visitedIndices (e + 1) rest

/-- The glyph loop of `main` (lato_glyphs.rs:117-126): enumerate the shaped
glyphs, skip every glyph that is not simple, and call `draw_glyph_to_canvas`
with the enumeration index as key. -/
def mainProcess (glyphs : List Glyph) : List (DrawOut FormatError (List Stmt)) :=
  (glyphs.enum.filter fun p => p.2.is_simple).map fun p => draw_glyph_to_canvas p.2 p.1

/-- Font (§3): the immutable value produced by parsing.  Derived tables are
modelled as lookup functions. -/
structure Font where
  unitsPerEm : Nat
  numGlyphs : Nat
  cmapTable : Char → Option Nat
  glyphResult : Nat → Except FormatError Glyph
  advanceWidthOf : Nat → Nat

/-- Modelled from the spec: cmap lookup (§4.6) is not under src/; unmapped
scalars resolve to glyph id 0 rather than failing. -/
def cmapLookup (f : Font) (c : Char) : Nat :=
  (f.cmapTable c).getD 0

/-- Modelled from the spec: the fallback the Shaper substitutes for a glyph
whose decode fails (§7: e.g. an empty outline). -/
def fallbackGlyph : Glyph :=
  { id := 0, description := ⟨0, 0, 0, 0⟩, data := GlyphData.empty
  , advanceWidth := 0, leftSideBearing := 0 }

/-- Glyph access with the §7 per-glyph recovery: a decode error is scoped to
the glyph and replaced by the fallback. -/
def Font.glyphOrFallback (f : Font) (gid : Nat) : Glyph :=
  match f.glyphResult gid with
  | Except.ok g => g
  | Except.error _ => fallbackGlyph

/-- ShapedGlyph (§3): a glyph positioned at the current pen position. -/
structure ShapedGlyph where
  glyph : Glyph
  penX : Nat
  penY : Int
deriving DecidableEq

/-- Modelled from the spec: the Shaper (§4.7) is not under src/; for each
character in order it resolves the glyph id via cmap, decodes the glyph
(substituting the fallback on a per-glyph error), emits a ShapedGlyph at the
current pen position, and advances the pen by that glyph id's advanceWidth. -/
def shapeGo (f : Font) (penX : Nat) : List Char → List ShapedGlyph
  | [] => []
  | c :: rest =>
    { glyph := f.glyphOrFallback (cmapLookup f c), penX := penX, penY := 0 }
      :: shapeGo f (penX + f.advanceWidthOf (cmapLookup f c)) rest

/-- `shaper.shape(text)` (§6): shaping starts at pen position 0. -/
def shape (f : Font) (s : List Char) : List ShapedGlyph :=
  shapeGo f 0 s

/-- Modelled from the spec: Font construction (§4.1-§4.3, §7) is not under
src/; `parse` sequences the table parses and the first table-level error
aborts construction, so a Font exists only when every stage succeeded. -/
def parseFont (tUnits tNum : Except FormatError Nat)
    (tCmap : Except FormatError (Char → Option Nat))
    (tGlyf : Except FormatError (Nat → Except FormatError Glyph))
    (tHmtx : Except FormatError (Nat → Nat)) : Except FormatError Font :=
  match tUnits with
  | Except.error e => Except.error e
  | Except.ok u =>
    match tNum with
    | Except.error e => Except.error e
    | Except.ok n =>
      match tCmap with
      | Except.error e => Except.error e
      | Except.ok c =>
        match tGlyf with
        | Except.error e => Except.error e
        | Except.ok g =>
          match tHmtx with
          | Except.error e => Except.error e
          | Except.ok a => Except.ok ⟨u, n, c, g, a⟩

mutual

/-- Modelled from the spec: recursive compound-glyph resolution (§5, §3, §8)
is not under src/; it carries an explicit recursion-depth counter, reports
depth exhaustion and self-reference as errors, and flattens a glyph to the
simple outlines it references. -/
def resolveGlyph (f : Font) : Nat → Nat → Except FormatError (List SimpleGlyph)
  | 0, _ => Except.error FormatError.recursionDepthExceeded
  | depth + 1, gid =>
    if f.numGlyphs ≤ gid then Except.error FormatError.invalidGlyphIndex
    else
      match f.glyphResult gid with
      | Except.error e => Except.error e
      | Except.ok g =>
        match g.data with
        | GlyphData.empty => Except.ok []
        | GlyphData.simple sg => Except.ok [sg]
        | GlyphData.compound cgd => resolveComponents f depth gid cgd.components
termination_by d gid => (d, 0)

/-- Modelled from the spec: resolution of a compound glyph's component list;
a component referencing the containing glyph id is a decode error (§3). -/
def resolveComponents (f : Font) (depth gid : Nat) :
    List Component → Except FormatError (List SimpleGlyph)
  | [] => Except.ok []
  | comp :: rest =>
    if comp.glyphIndex = gid then Except.error FormatError.selfReferencingGlyph
    else
      match resolveGlyph f depth comp.glyphIndex with
      | Except.error e => Except.error e
      | Except.ok sub =>
        match resolveComponents f depth gid rest with
        | Except.error e => Except.error e
        | Except.ok more => Except.ok (sub ++ more)
termination_by l => (depth, l.length + 1)

end

/-- The spec's standard maximum recursion depth for compound resolution
(§5: e.g. 8). -/
def maxCompoundDepth : Nat := 8

/-- Modelled from the spec: a contour point for curve reconstruction (§4.5);
rational coordinates so that implied midpoints are exact. -/
structure FPoint where
  x : Rat
  y : Rat
  onCurve : Bool
deriving DecidableEq

/-- Modelled from the spec: the deterministic midpoint function of §4.5,
`midpoint(p_prev, p_curr) = ((x_prev+x_curr)/2, (y_prev+y_curr)/2)`. -/
def midpointOf (p q : FPoint) : Rat × Rat :=
  ((p.x + q.x) / 2, (p.y + q.y) / 2)

/-- Modelled from the spec: the implied on-curve point at the midpoint of two
consecutive off-curve points (§4.5). -/
def impliedOn (p q : FPoint) : FPoint :=
  { x := (p.x + q.x) / 2, y := (p.y + q.y) / 2, onCurve := true }

/-- Modelled from the spec: insert the implied on-curve midpoint between every
two consecutive off-curve points of a contour (§4.5). -/
def insertImplied : List FPoint → List FPoint
  | p :: q :: rest =>
    if p.onCurve = false ∧ q.onCurve = false then
      p :: impliedOn p q :: insertImplied (q :: rest)
    else
      p :: insertImplied (q :: rest)
  | l => l

/-- Modelled from the spec: cyclic closure (§4.5) — the contour closes from
its last point back to its first, inserting the implied midpoint there too
when both are off-curve. -/
def expandContour (pts : List FPoint) : List FPoint :=
  match pts.head?, pts.getLast? with
  | some first, some last =>
    if last.onCurve = false ∧ first.onCurve = false then
      insertImplied pts ++ [impliedOn last first]
    else insertImplied pts
  | _, _ => pts

/-- Modelled from the spec: walk an expanded contour emitting path commands
(§4.5): an on-curve point ends a line segment; an off-curve point is the
control of a quadratic segment ending at the following point, or closing back
to the contour start when it is the final point. -/
def emitSegments (start : Rat × Rat) : List FPoint → List Stmt
  | [] => []
  | p :: rest =>
    if p.onCurve then Stmt.lineTo p.x p.y :: emitSegments start rest
    else
      match rest with
      | [] => [Stmt.quadraticCurveTo p.x p.y start.1 start.2]
      | q :: rest2 => Stmt.quadraticCurveTo p.x p.y q.x q.y :: emitSegments start rest2

/-- winit's PhysicalSize<u32>. -/
structure PhysicalSize where
  width : Nat
  height : Nat
deriving DecidableEq

/-- wgpu's SurfaceConfiguration as built in State::new (state.rs:140-149);
the fields resize does not touch are carried to state that they stay put. -/
structure SurfaceConfiguration where
  usage : Nat
  format : Nat
  width : Nat
  height : Nat
  presentMode : Nat
  alphaMode : Nat
  viewFormats : List Nat
  desiredMaximumFrameLatency : Nat
deriving DecidableEq

/-- The surface, modelled by the configuration it was last configured with
(`surface.configure`, state.rs:376). -/
structure Surface where
  configuredWith : Option SurfaceConfiguration
deriving DecidableEq

/-- DrawUniform fields as used in state.rs (lines 563-568). -/
structure DrawUniform where
  crosshair : Bool
  circleCenterX : Rat
  circleCenterY : Rat
  circleRadius : Rat
deriving DecidableEq

/-- FeatureUniform: its window dimensions plus its remaining content.  The
struct's own source is not under src/; the remaining fields are carried
opaquely as `gamma` and `featureBits`. -/
structure FeatureUniform where
  windowWidth : Nat
  windowHeight : Nat
  gamma : Rat
  featureBits : Nat
deriving DecidableEq

/-- Modelled from the spec: `FeatureUniform::update_window_dimensions` is not
under src/; per its name and call site (state.rs:377-378) it updates the
uniform's window dimensions and nothing else. -/
def FeatureUniform.update_window_dimensions (u : FeatureUniform) (w h : Nat) : FeatureUniform :=
  { u with windowWidth := w, windowHeight := h }

/-- The renderer State (state.rs:58-84); handles to GPU objects that resize
never touches are carried as opaque naturals. -/
structure State where
  surface : Surface
  device : Nat
  queue : Nat
  config : SurfaceConfiguration
  size : PhysicalSize
  image_render_pipeline : Nat
  vertex_buffer : Nat
  index_buffer : Nat
  num_indices : Nat
  diffuse_texture : Nat
  diffuse_bind_group : Nat
  window : Nat
  feature_uniform : FeatureUniform
  feature_buffer : Nat
  feature_bind_group : Nat
  draw_uniform : DrawUniform
  draw_buffer : Nat
  draw_bind_group : Nat
  mouse_state : Nat
  shape_stack : List Nat
deriving DecidableEq

/-- `State::resize` (state.rs:361-380): when both dimensions are positive it
sets the size, the config's width and height, reconfigures the surface with
the updated config, and updates the feature uniform's window dimensions;
otherwise it does nothing. -/
def State.resize (s : State) (new_size : PhysicalSize) : State :=
  if 0 < new_size.width ∧ 0 < new_size.height then
    let config' : SurfaceConfiguration :=
      { s.config with width := new_size.width, height := new_size.height }
    { s with
        size := new_size
      , config := config'
      , surface := { configuredWith := some config' }
      , feature_uniform :=
          s.feature_uniform.update_window_dimensions config'.width config'.height }
  else s

/-- A small concrete simple glyph (a triangle) used as witness input. -/
def demoSimpleGlyph : SimpleGlyph :=
  { end_points_of_contours := [2]
  , coordinates := [(0, 0), (10, 0), (5, 8)]
  , flags := [true, true, true] }

/-- A concrete glyph wrapping `demoSimpleGlyph`. -/
def demoGlyph : Glyph :=
  { id := 1, description := ⟨0, 0, 10, 8⟩, data := GlyphData.simple demoSimpleGlyph
  , advanceWidth := 12, leftSideBearing := 0 }

/-- The command list `draw_glyph_to_canvas` produces for `demoGlyph`. -/
def demoCmds : List Stmt :=
  [Stmt.translate 0 (-292), Stmt.scale (1 / 2) (-(1 / 2)), Stmt.beginPath,
   Stmt.moveTo ((0 : Int) : Rat) ((0 : Int) : Rat),
   Stmt.lineTo ((10 : Int) : Rat) ((0 : Int) : Rat),
   Stmt.lineTo ((5 : Int) : Rat) ((8 : Int) : Rat),
   Stmt.closePath, Stmt.lineWidth 9, Stmt.stroke]

/-- A concrete font for witnesses: maps only 'A' (to glyph 1), decodes only
glyph 1 and reports an error for every other glyph id. -/
def demoFont : Font :=
  { unitsPerEm := 1000
  , numGlyphs := 2
  , cmapTable := fun c => if c = 'A' then some 1 else none
  , glyphResult := fun gid =>
      if gid = 1 then Except.ok demoGlyph else Except.error FormatError.malformedGlyph
  , advanceWidthOf := fun gid => if gid = 1 then 12 else 5 }

/-- A component that references glyph id 0 — used to build a self-referencing
compound glyph. -/
def selfRefComponent : Component :=
  { glyphIndex := 0, dx := 0, dy := 0, transform := none }

/-- A compound glyph whose single component references its own glyph id 0. -/
def selfRefGlyph : Glyph :=
  { id := 0, description := ⟨0, 0, 0, 0⟩
  , data := GlyphData.compound ⟨[selfRefComponent]⟩
  , advanceWidth := 0, leftSideBearing := 0 }

/-- A compound glyph 1 whose component references glyph 2. -/
def cycGlyph1 : Glyph :=
  { id := 1, description := ⟨0, 0, 0, 0⟩
  , data := GlyphData.compound ⟨[{ glyphIndex := 2, dx := 0, dy := 0, transform := none }]⟩
  , advanceWidth := 0, leftSideBearing := 0 }

/-- A compound glyph 2 whose component references glyph 1, closing a cycle. -/
def cycGlyph2 : Glyph :=
  { id := 2, description := ⟨0, 0, 0, 0⟩
  , data := GlyphData.compound ⟨[{ glyphIndex := 1, dx := 0, dy := 0, transform := none }]⟩
  , advanceWidth := 0, leftSideBearing := 0 }

/-- A font holding a self-referencing compound glyph (id 0) and a two-glyph
reference cycle (ids 1 and 2). -/
def cycleFont : Font :=
  { unitsPerEm := 1000
  , numGlyphs := 3
  , cmapTable := fun _ => none
  , glyphResult := fun gid =>
      if gid = 0 then Except.ok selfRefGlyph
      else if gid = 1 then Except.ok cycGlyph1
      else if gid = 2 then Except.ok cycGlyph2
      else Except.error FormatError.invalidGlyphIndex
  , advanceWidthOf := fun _ => 0 }

/-- A concrete renderer state used as witness input. -/
def demoState : State :=
  { surface := ⟨none⟩, device := 0, queue := 0
  , config := { usage := 0, format := 0, width := 640, height := 480
              , presentMode := 0, alphaMode := 0, viewFormats := []
              , desiredMaximumFrameLatency := 2 }
  , size := ⟨640, 480⟩
  , image_render_pipeline := 0, vertex_buffer := 0, index_buffer := 0
  , num_indices := 6, diffuse_texture := 0, diffuse_bind_group := 0, window := 0
  , feature_uniform := { windowWidth := 640, windowHeight := 480, gamma := 1, featureBits := 0 }
  , feature_buffer := 0, feature_bind_group := 0
  , draw_uniform := { crosshair := false, circleCenterX := 0, circleCenterY := 0
                    , circleRadius := 0 }
  , draw_buffer := 0, draw_bind_group := 0, mouse_state := 0, shape_stack := [] }

/-! ## Helper lemmas about the draw loop -/

theorem loop_ok_eq {ε : Type} (sg : SimpleGlyph)
    (ipw : SimpleGlyph → Nat → Except ε (Rat × Rat)) :
    ∀ (idxs : List Nat) (l : List Stmt),
      drawContourLoop sg ipw idxs = Except.ok l → l = idxs.map (lineCmd sg) := by
  intro idxs
  induction idxs with
  | nil =>
    intro l h
    simp [drawContourLoop] at h
    simp [← h]
  | cons i rest ih =>
    intro l h
    simp only [drawContourLoop] at h
    cases hb : sg.on_curve (i - 1) && sg.on_curve i with
    | true =>
      simp only [hb, if_true] at h
      cases hip : ipw sg i with
      | error e => rw [hip] at h; cases h
      | ok v =>
        rw [hip] at h
        cases hrec : drawContourLoop sg ipw rest with
        | error e => rw [hrec] at h; cases h
        | ok l2 =>
          rw [hrec] at h
          cases h
          simp only [List.map_cons, lineCmd]
          rw [ih l2 hrec]
    | false =>
      simp only [hb, Bool.false_eq_true, if_false] at h
      cases hrec : drawContourLoop sg ipw rest with
      | error e => rw [hrec] at h; cases h
      | ok l2 =>
        rw [hrec] at h
        cases h
        simp only [List.map_cons, lineCmd]
        rw [ih l2 hrec]

theorem contours_ok_eq {ε : Type} (sg : SimpleGlyph)
    (ipw : SimpleGlyph → Nat → Except ε (Rat × Rat)) :
    ∀ (eps : List Nat) (start : Nat) (l : List Stmt),
      drawContours sg ipw start eps = Except.ok l → l = contoursCmds sg start eps := by
  intro eps
  induction eps with
  | nil =>
    intro start l h
    simp [drawContours] at h
    simp [← h, contoursCmds]
  | cons e rest ih =>
    intro start l h
    simp only [drawContours] at h
    cases hloop : drawContourLoop sg ipw (List.range' (start + 1) (e - start)) with
    | error er => rw [hloop] at h; cases h
    | ok body =>
      rw [hloop] at h
      cases hrec : drawContours sg ipw (e + 1) rest with
      | error er => rw [hrec] at h; cases h
      | ok more =>
        rw [hrec] at h
        cases h
        rw [loop_ok_eq sg ipw _ body hloop, ih (e + 1) more hrec]
        simp [contoursCmds, contourCmds]

theorem no_quad_contoursCmds (sg : SimpleGlyph) :
    ∀ (eps : List Nat) (start : Nat) (cx cy x y : Rat),
      Stmt.quadraticCurveTo cx cy x y ∉ contoursCmds sg start eps := by
  intro eps
  induction eps with
  | nil => intro start cx cy x y; simp [contoursCmds]
  | cons e rest ih =>
    intro start cx cy x y hmem
    simp only [contoursCmds] at hmem
    rcases List.mem_append.mp hmem with h | h
    · simp only [contourCmds] at h
      rcases List.mem_cons.mp h with h | h
      · cases h
      · rcases List.mem_append.mp h with h | h
        · obtain ⟨i, _, hEq⟩ := List.mem_map.mp h
          simp [lineCmd] at hEq
        · have h2 := List.mem_singleton.mp h
          cases h2
    · exact ih (e + 1) cx cy x y h

theorem loop_error_eq {ε : Type} (sg : SimpleGlyph)
    (ipw : SimpleGlyph → Nat → Except ε (Rat × Rat)) :
    ∀ (idxs : List Nat) (e : ε),
      drawContourLoop sg ipw idxs = Except.error e →
      ∃ i ∈ idxs, sg.on_curve (i - 1) = true ∧ sg.on_curve i = true ∧
        ipw sg i = Except.error e := by
  intro idxs
  induction idxs with
  | nil => intro e h; simp [drawContourLoop] at h
  | cons i rest ih =>
    intro e h
    simp only [drawContourLoop] at h
    cases hb : sg.on_curve (i - 1) && sg.on_curve i with
    | true =>
      simp only [hb, if_true] at h
      cases hip : ipw sg i with
      | error e2 =>
        rw [hip] at h
        cases h
        refine ⟨i, List.mem_cons_self i rest, ?_, ?_, hip⟩
        · exact (Bool.and_eq_true _ _ |>.mp hb).1
        · exact (Bool.and_eq_true _ _ |>.mp hb).2
      | ok v =>
        rw [hip] at h
        cases hrec : drawContourLoop sg ipw rest with
        | error e2 =>
          rw [hrec] at h
          cases h
          obtain ⟨j, hj, h1, h2, h3⟩ := ih e hrec
          exact ⟨j, List.mem_cons_of_mem i hj, h1, h2, h3⟩
        | ok l2 => rw [hrec] at h; cases h
    | false =>
      simp only [hb, Bool.false_eq_true, if_false] at h
      cases hrec : drawContourLoop sg ipw rest with
      | error e2 =>
        rw [hrec] at h
        cases h
        obtain ⟨j, hj, h1, h2, h3⟩ := ih e hrec
        exact ⟨j, List.mem_cons_of_mem i hj, h1, h2, h3⟩
      | ok l2 => rw [hrec] at h; cases h

theorem loop_ok_exists {ε : Type} (sg : SimpleGlyph)
    (ipw : SimpleGlyph → Nat → Except ε (Rat × Rat)) :
    ∀ idxs : List Nat,
      (∀ i ∈ idxs, sg.on_curve (i - 1) = true → sg.on_curve i = true →
        (ipw sg i).isOk = true) →
      ∃ l, drawContourLoop sg ipw idxs = Except.ok l := by
  intro idxs
  induction idxs with
  | nil => intro _; exact ⟨[], by simp [drawContourLoop]⟩
  | cons i rest ih =>
    intro hall
    obtain ⟨l2, hl2⟩ := ih fun j hj => hall j (List.mem_cons_of_mem i hj)
    cases hb : sg.on_curve (i - 1) && sg.on_curve i with
    | true =>
      have h1 := (Bool.and_eq_true _ _ |>.mp hb).1
      have h2 := (Bool.and_eq_true _ _ |>.mp hb).2
      have hok := hall i (List.mem_cons_self i rest) h1 h2
      cases hip : ipw sg i with
      | error e => rw [hip] at hok; simp [Except.isOk, Except.toBool] at hok
      | ok v =>
        refine ⟨Stmt.lineTo ((sg.coordinates.getD i (0, 0)).1 : Int)
            ((sg.coordinates.getD i (0, 0)).2 : Int) :: l2, ?_⟩
        simp only [drawContourLoop, hb, if_true, hip, hl2]
    | false =>
      refine ⟨Stmt.lineTo ((sg.coordinates.getD i (0, 0)).1 : Int)
          ((sg.coordinates.getD i (0, 0)).2 : Int) :: l2, ?_⟩
      simp only [drawContourLoop, hb, Bool.false_eq_true, if_false, hl2]

theorem contours_error_eq {ε : Type} (sg : SimpleGlyph)
    (ipw : SimpleGlyph → Nat → Except ε (Rat × Rat)) :
    ∀ (eps : List Nat) (start : Nat) (e : ε),
      drawContours sg ipw start eps = Except.error e →
      ∃ i ∈ visitedIndices start eps, sg.on_curve (i - 1) = true ∧
        sg.on_curve i = true ∧ ipw sg i = Except.error e := by
  intro eps
  induction eps with
  | nil => intro start e h; simp [drawContours] at h
  | cons ep rest ih =>
    intro start e h
    simp only [drawContours] at h
    cases hloop : drawContourLoop sg ipw (List.range' (start + 1) (ep - start)) with
    | error er =>
      rw [hloop] at h
      cases h
      obtain ⟨i, hi, h1, h2, h3⟩ := loop_error_eq sg ipw _ e hloop
      exact ⟨i, by simp [visitedIndices, hi], h1, h2, h3⟩
    | ok body =>
      rw [hloop] at h
      cases hrec : drawContours sg ipw (ep + 1) rest with
      | error er =>
        rw [hrec] at h
        cases h
        obtain ⟨i, hi, h1, h2, h3⟩ := ih (ep + 1) e hrec
        exact ⟨i, by simp [visitedIndices, hi], h1, h2, h3⟩
      | ok more => rw [hrec] at h; cases h

theorem contours_ok_exists {ε : Type} (sg : SimpleGlyph)
    (ipw : SimpleGlyph → Nat → Except ε (Rat × Rat)) :
    ∀ (eps : List Nat) (start : Nat),
      (∀ i ∈ visitedIndices start eps, sg.on_curve (i - 1) = true →
        sg.on_curve i = true → (ipw sg i).isOk = true) →
      ∃ l, drawContours sg ipw start eps = Except.ok l := by
  intro eps
  induction eps with
  | nil => intro start _; exact ⟨[], by simp [drawContours]⟩
  | cons ep rest ih =>
    intro start hall
    obtain ⟨body, hbody⟩ := loop_ok_exists sg ipw (List.range' (start + 1) (ep - start))
      fun i hi => hall i (by simp [visitedIndices, hi])
    obtain ⟨more, hmore⟩ := ih (ep + 1)
      fun i hi => hall i (by simp [visitedIndices, hi])
    refine ⟨Stmt.moveTo ((sg.coordinates.getD start (0, 0)).1 : Int)
        ((sg.coordinates.getD start (0, 0)).2 : Int) :: body ++ Stmt.closePath :: more, ?_⟩
    simp only [drawContours, hbody, hmore]

/-! ## Claim theorems C1 and C9 -/

/-- C1: for every simple glyph passed to the canvas front end,
`draw_glyph_to_canvas` emits per contour only straight-line path commands —
one moveTo at the contour's first point, a lineTo for every subsequent point
up to the contour's end index, and a closePath — and never emits a
quadraticCurveTo command. -/
theorem draw_glyph_emits_only_straight_lines (g : Glyph) (key : Nat)
    (sg : SimpleGlyph) (l : List Stmt)
    (hdata : g.data = GlyphData.simple sg) (hwf : sg.WF)
    (hok : draw_glyph_to_canvas g key = DrawOut.ok l) :
    l = Stmt.translate 0 (g.description.height - 300)
        :: Stmt.scale (1 / 2) (-(1 / 2)) :: Stmt.beginPath
        :: contoursCmds sg 0 sg.end_points_of_contours ++ [Stmt.lineWidth 9, Stmt.stroke]
    ∧ ∀ cx cy x y : Rat, Stmt.quadraticCurveTo cx cy x y ∉ l := by
  simp only [draw_glyph_to_canvas, drawGlyphWith, hdata] at hok
  cases hc : drawContours sg (fun sg i => sg.interpolate_with_prev i) 0
      sg.end_points_of_contours with
  | error e => rw [hc] at hok; cases hok
  | ok body =>
    rw [hc] at hok
    cases hok
    have hbody := contours_ok_eq sg _ _ 0 body hc
    subst hbody
    refine ⟨rfl, ?_⟩
    intro cx cy x y hmem
    rcases List.mem_cons.mp hmem with h | hmem
    · cases h
    rcases List.mem_cons.mp hmem with h | hmem
    · cases h
    rcases List.mem_cons.mp hmem with h | hmem
    · cases h
    rcases List.mem_append.mp hmem with h | h
    · exact no_quad_contoursCmds sg sg.end_points_of_contours 0 cx cy x y h
    · rcases List.mem_cons.mp h with h | h
      · cases h
      · have h2 := List.mem_singleton.mp h
        cases h2

/-- Witness for C1 at the concrete demo glyph. -/
theorem draw_glyph_emits_only_straight_lines_witness :
    Stmt.quadraticCurveTo 1 2 3 4 ∉ demoCmds :=
  (draw_glyph_emits_only_straight_lines demoGlyph 0 demoSimpleGlyph demoCmds
    rfl ⟨by simp [demoSimpleGlyph], rfl⟩ rfl).2 1 2 3 4

/-- C9: the command list returned by `draw_glyph_to_canvas` depends only on
the glyph's coordinates, on-curve flags and endpoint indices, not on the
values `interpolate_with_prev` returns (its results are written to a vector
that is never read); an error from `interpolate_with_prev` at a visited index
whose point and predecessor are both on-curve is returned instead of a
command list, and those are the only error sources. -/
theorem draw_output_independent_of_interpolation :
    (∀ (ipw₁ ipw₂ : SimpleGlyph → Nat → Except FormatError (Rat × Rat))
       (g : Glyph) (key : Nat) (l₁ l₂ : List Stmt),
       drawGlyphWith ipw₁ g key = DrawOut.ok l₁ →
       drawGlyphWith ipw₂ g key = DrawOut.ok l₂ → l₁ = l₂)
    ∧ (∀ (ipw : SimpleGlyph → Nat → Except FormatError (Rat × Rat))
         (g : Glyph) (key : Nat) (e : FormatError),
         drawGlyphWith ipw g key = DrawOut.error e →
         ∃ sg, g.data = GlyphData.simple sg ∧
           ∃ i ∈ visitedIndices 0 sg.end_points_of_contours,
             sg.on_curve (i - 1) = true ∧ sg.on_curve i = true ∧
             ipw sg i = Except.error e)
    ∧ (∀ (ipw : SimpleGlyph → Nat → Except FormatError (Rat × Rat))
         (g : Glyph) (key : Nat) (sg : SimpleGlyph),
         g.data = GlyphData.simple sg →
         (∀ i ∈ visitedIndices 0 sg.end_points_of_contours,
            sg.on_curve (i - 1) = true → sg.on_curve i = true →
            (ipw sg i).isOk = true) →
         ∃ l, drawGlyphWith ipw g key = DrawOut.ok l)
    ∧ (∀ (g : Glyph) (key : Nat),
         draw_glyph_to_canvas g key
           = drawGlyphWith (fun sg i => sg.interpolate_with_prev i) g key) := by
  refine ⟨?_, ?_, ?_, fun g key => rfl⟩
  · intro ipw₁ ipw₂ g key l₁ l₂ h₁ h₂
    cases hd : g.data with
    | simple sg =>
      simp only [drawGlyphWith, hd] at h₁ h₂
      cases hc₁ : drawContours sg ipw₁ 0 sg.end_points_of_contours with
      | error e => rw [hc₁] at h₁; cases h₁
      | ok b₁ =>
        rw [hc₁] at h₁
        cases hc₂ : drawContours sg ipw₂ 0 sg.end_points_of_contours with
        | error e => rw [hc₂] at h₂; cases h₂
        | ok b₂ =>
          rw [hc₂] at h₂
          cases h₁
          cases h₂
          rw [contours_ok_eq sg ipw₁ _ 0 b₁ hc₁, contours_ok_eq sg ipw₂ _ 0 b₂ hc₂]
    | compound cgd => simp only [drawGlyphWith, hd] at h₁; cases h₁
    | empty => simp only [drawGlyphWith, hd] at h₁; cases h₁
  · intro ipw g key e h
    cases hd : g.data with
    | simple sg =>
      simp only [drawGlyphWith, hd] at h
      cases hc : drawContours sg ipw 0 sg.end_points_of_contours with
      | error er =>
        rw [hc] at h
        cases h
        exact ⟨sg, rfl, contours_error_eq sg ipw _ 0 e hc⟩
      | ok b => rw [hc] at h; cases h
    | compound cgd => simp only [drawGlyphWith, hd] at h; cases h
    | empty => simp only [drawGlyphWith, hd] at h; cases h
  · intro ipw g key sg hd hall
    obtain ⟨b, hb⟩ := contours_ok_exists sg ipw sg.end_points_of_contours 0 hall
    refine ⟨Stmt.translate 0 (g.description.height - 300)
        :: Stmt.scale (1 / 2) (-(1 / 2)) :: Stmt.beginPath
        :: b ++ [Stmt.lineWidth 9, Stmt.stroke], ?_⟩
    simp only [drawGlyphWith, hd, hb]

/-- Witness for C9: two different interpolation functions produce the same
command list on the demo glyph. -/
theorem draw_output_independent_of_interpolation_witness : demoCmds = demoCmds :=
  (draw_output_independent_of_interpolation).1
    (fun sg i => sg.interpolate_with_prev i) (fun _ _ => Except.ok (3, 7))
    demoGlyph 0 demoCmds demoCmds rfl rfl

/-! ## Claim theorems C8 and C3 -/

/-- C8: in the lato_glyphs binary, `main` calls `draw_glyph_to_canvas` only on
glyphs for which `is_simple` returns true (all others are skipped), so —
`is_simple` holding exactly on the Simple variant — the compound-glyph todo!
panic branch of `draw_glyph_to_canvas` is unreachable from `main` for every
input. -/
theorem main_never_hits_compound_todo (glyphs : List Glyph) :
    ∀ r ∈ mainProcess glyphs, r ≠ DrawOut.panics := by
  intro r hr
  simp only [mainProcess, List.mem_map] at hr
  obtain ⟨p, hp, hdraw⟩ := hr
  have hsimple : p.2.is_simple = true := (List.mem_filter.mp hp).2
  cases hd : p.2.data with
  | simple sg =>
    intro hcontra
    rw [← hdraw] at hcontra
    simp only [draw_glyph_to_canvas, drawGlyphWith, hd] at hcontra
    cases hc : drawContours sg (fun sg i => sg.interpolate_with_prev i) 0
        sg.end_points_of_contours with
    | error e => rw [hc] at hcontra; cases hcontra
    | ok b => rw [hc] at hcontra; cases hcontra
  | compound cgd => simp [Glyph.is_simple, hd] at hsimple
  | empty => simp [Glyph.is_simple, hd] at hsimple

/-- Witness for C8 on a one-glyph list. -/
theorem main_never_hits_compound_todo_witness :
    draw_glyph_to_canvas demoGlyph 0 ≠ DrawOut.panics :=
  main_never_hits_compound_todo [demoGlyph] (draw_glyph_to_canvas demoGlyph 0)
    (List.mem_singleton.mpr rfl)

theorem mem_le_of_getLast? :
    ∀ l : List Nat, List.Pairwise (· < ·) l →
      ∀ x, l.getLast? = some x → ∀ e ∈ l, e ≤ x := by
  intro l
  induction l with
  | nil => intro _ x hx; simp at hx
  | cons a t ih =>
    intro hp x hx e he
    cases t with
    | nil =>
      simp at hx
      rcases List.mem_singleton.mp he with rfl
      omega
    | cons b t2 =>
      rw [List.getLast?_cons_cons] at hx
      rcases List.mem_cons.mp he with rfl | he2
      · have hx_mem : x ∈ b :: t2 := by
          obtain ⟨hne, hxl⟩ := List.mem_getLast?_eq_getLast (Option.mem_def.mpr hx)
          rw [hxl]
          exact List.getLast_mem hne
        have halt := (List.pairwise_cons.mp hp).1 x hx_mem
        omega
      · exact ih (List.pairwise_cons.mp hp).2 x hx e he2

/-- C3: for a simple glyph satisfying the decoder's invariant —
`len(coordinates) = last(endPointsOfContours) + 1` with strictly increasing
endpoints — every index from a contour's start through its end index is a
valid index into `coordinates`. -/
theorem simple_glyph_contour_indices_valid (sg : SimpleGlyph) (hwf : sg.WF) :
    ∀ e ∈ sg.end_points_of_contours, ∀ i : Nat, i ≤ e → i < sg.coordinates.length := by
  intro e he i hie
  obtain ⟨hp, hlen⟩ := hwf
  cases hlast : sg.end_points_of_contours.getLast? with
  | none =>
    rw [List.getLast?_eq_none_iff] at hlast
    rw [hlast] at he
    cases he
  | some x =>
    simp only [hlast] at hlen
    have hex := mem_le_of_getLast? _ hp x hlast e he
    omega

/-- Witness for C3 at the demo glyph: index 1 lies below its endpoint 2 and is
a valid coordinate index. -/
theorem simple_glyph_contour_indices_valid_witness :
    (1 : Nat) < demoSimpleGlyph.coordinates.length :=
  simple_glyph_contour_indices_valid demoSimpleGlyph
    ⟨by simp [demoSimpleGlyph], rfl⟩ 2 (by simp [demoSimpleGlyph]) 1 (by omega)

/-! ## Shaper lemmas and claims C4, C5, C6 -/

theorem shapeGo_length (f : Font) :
    ∀ (s : List Char) (p : Nat), (shapeGo f p s).length = s.length := by
  intro s
  induction s with
  | nil => intro p; rfl
  | cons c rest ih => intro p; simp [shapeGo, ih]

theorem shapeGo_map_glyph (f : Font) :
    ∀ (s : List Char) (p : Nat),
      (shapeGo f p s).map (fun sh => sh.glyph)
        = s.map (fun c => f.glyphOrFallback (cmapLookup f c)) := by
  intro s
  induction s with
  | nil => intro p; rfl
  | cons c rest ih => intro p; simp [shapeGo, ih]

theorem shapeGo_penX_mono (f : Font) :
    ∀ (s : List Char) (p : Nat),
      List.Chain' (· ≤ ·) ((shapeGo f p s).map ShapedGlyph.penX)
      ∧ ∀ q ∈ (shapeGo f p s).map ShapedGlyph.penX, p ≤ q := by
  intro s
  induction s with
  | nil => intro p; exact ⟨List.chain'_nil, by simp [shapeGo]⟩
  | cons c rest ih =>
    intro p
    obtain ⟨ihc, ihb⟩ := ih (p + f.advanceWidthOf (cmapLookup f c))
    constructor
    · simp only [shapeGo, List.map_cons]
      refine List.chain'_cons'.mpr ⟨?_, ihc⟩
      intro q hq
      have hmem := List.mem_of_mem_head? hq
      have := ihb q hmem
      omega
    · intro q hq
      simp only [shapeGo, List.map_cons, List.mem_cons] at hq
      rcases hq with h | hq
      · cases h; exact Nat.le_refl _
      · have := ihb q hq
        omega

/-- C4: `shape` returns exactly one entry per input character, in input order,
with non-decreasing pen X; the empty string shapes to the empty list; an
unmapped character still advances the pen by glyph 0's advance width. -/
theorem shape_order_and_length (f : Font) (s : List Char) :
    (shape f s).length = s.length
    ∧ (shape f s).map (fun sh => sh.glyph)
        = s.map (fun c => f.glyphOrFallback (cmapLookup f c))
    ∧ List.Chain' (· ≤ ·) ((shape f s).map ShapedGlyph.penX)
    ∧ shape f [] = []
    ∧ (∀ (c : Char) (rest : List Char), f.cmapTable c = none →
        shape f (c :: rest)
          = { glyph := f.glyphOrFallback 0, penX := 0, penY := 0 }
            :: shapeGo f (f.advanceWidthOf 0) rest) := by
  refine ⟨shapeGo_length f s 0, shapeGo_map_glyph f s 0, (shapeGo_penX_mono f s 0).1,
    rfl, ?_⟩
  intro c rest hc
  simp [shape, shapeGo, cmapLookup, hc]

/-- Witness for C4: shaping an unmapped character consumes glyph 0's
metrics. -/
theorem shape_order_and_length_witness :
    shape demoFont ['?']
      = { glyph := demoFont.glyphOrFallback 0, penX := 0, penY := 0 }
        :: shapeGo demoFont (demoFont.advanceWidthOf 0) [] :=
  (shape_order_and_length demoFont ['?']).2.2.2.2 '?' [] (by decide)

/-- C5: a Unicode scalar the cmap does not map resolves to glyph id 0 (the
notdef glyph) instead of an error, so cmap lookup never fails during shaping
and shaping yields one entry per input character. -/
theorem cmap_unmapped_resolves_to_notdef (f : Font) (c : Char)
    (h : f.cmapTable c = none) :
    cmapLookup f c = 0 ∧ ∀ s : List Char, (shape f s).length = s.length := by
  constructor
  · simp [cmapLookup, h]
  · intro s
    exact shapeGo_length f s 0

/-- Witness for C5 at the demo font and an unmapped character. -/
theorem cmap_unmapped_resolves_to_notdef_witness :
    cmapLookup demoFont '?' = 0 :=
  (cmap_unmapped_resolves_to_notdef demoFont '?' (by decide)).1

/-- C6: a table-level error in any stage aborts Font construction entirely —
`parseFont` succeeds exactly when every stage succeeds, and a returned Font is
built from the successful stages only — while per-glyph errors are scoped to
the glyph: shaping length never depends on glyph decode results, and a failed
glyph decode is replaced by the fallback glyph. -/
theorem font_construction_and_shaping_error_policy
    (tUnits tNum : Except FormatError Nat)
    (tCmap : Except FormatError (Char → Option Nat))
    (tGlyf : Except FormatError (Nat → Except FormatError Glyph))
    (tHmtx : Except FormatError (Nat → Nat)) :
    ((parseFont tUnits tNum tCmap tGlyf tHmtx).isOk = true ↔
      (tUnits.isOk = true ∧ tNum.isOk = true ∧ tCmap.isOk = true ∧
        tGlyf.isOk = true ∧ tHmtx.isOk = true))
    ∧ (∀ f : Font, parseFont tUnits tNum tCmap tGlyf tHmtx = Except.ok f →
        tUnits = Except.ok f.unitsPerEm ∧ tNum = Except.ok f.numGlyphs ∧
        tCmap = Except.ok f.cmapTable ∧ tGlyf = Except.ok f.glyphResult ∧
        tHmtx = Except.ok f.advanceWidthOf)
    ∧ (∀ (f : Font) (s : List Char), (shape f s).length = s.length)
    ∧ (∀ (f : Font) (gid : Nat) (e : FormatError),
        f.glyphResult gid = Except.error e → f.glyphOrFallback gid = fallbackGlyph) := by
  refine ⟨?_, ?_, fun f s => shapeGo_length f s 0, ?_⟩
  · rcases tUnits with eU | u <;> rcases tNum with eN | n <;> rcases tCmap with eC | c <;>
      rcases tGlyf with eG | g <;> rcases tHmtx with eA | a <;>
        simp [parseFont, Except.isOk, Except.toBool]
  · intro f h
    rcases tUnits with eU | u <;> rcases tNum with eN | n <;> rcases tCmap with eC | c <;>
      rcases tGlyf with eG | g <;> rcases tHmtx with eA | a <;>
        simp [parseFont] at h
    rw [← h]
    exact ⟨rfl, rfl, rfl, rfl, rfl⟩
  · intro f gid e h
    simp [Font.glyphOrFallback, h]

/-- Witness for C6: a failing glyph decode in the demo font is replaced by the
fallback glyph. -/
theorem font_construction_and_shaping_error_policy_witness :
    demoFont.glyphOrFallback 0 = fallbackGlyph :=
  (font_construction_and_shaping_error_policy (Except.ok 1000) (Except.ok 2)
      (Except.ok demoFont.cmapTable) (Except.ok demoFont.glyphResult)
      (Except.ok demoFont.advanceWidthOf)).2.2.2 demoFont 0
    FormatError.malformedGlyph rfl

/-! ## Claim C7: compound-glyph resolution -/

/-- C7: compound resolution always terminates with a result: resolution with
an exhausted depth counter reports `recursionDepthExceeded`; a component
referencing its own glyph id is rejected with `selfReferencingGlyph`; and a
two-glyph reference cycle exhausts any depth budget and is reported as
`recursionDepthExceeded` instead of recursing forever. -/
theorem compound_resolution_depth_bounded :
    (∀ (f : Font) (d gid : Nat) (g : Glyph) (cgd : CompoundGlyphData)
       (comp : Component) (rest : List Component),
       gid < f.numGlyphs → f.glyphResult gid = Except.ok g →
       g.data = GlyphData.compound cgd → cgd.components = comp :: rest →
       comp.glyphIndex = gid →
       resolveGlyph f (d + 1) gid = Except.error FormatError.selfReferencingGlyph)
    ∧ (∀ (f : Font) (gid : Nat),
       resolveGlyph f 0 gid = Except.error FormatError.recursionDepthExceeded)
    ∧ (∀ (f : Font) (g₁ g₂ : Nat) (ga gb : Glyph) (c₁ c₂ : Component),
       g₁ < f.numGlyphs → g₂ < f.numGlyphs →
       f.glyphResult g₁ = Except.ok ga → ga.data = GlyphData.compound ⟨[c₁]⟩ →
       c₁.glyphIndex = g₂ →
       f.glyphResult g₂ = Except.ok gb → gb.data = GlyphData.compound ⟨[c₂]⟩ →
       c₂.glyphIndex = g₁ → g₁ ≠ g₂ →
       ∀ d : Nat,
         resolveGlyph f d g₁ = Except.error FormatError.recursionDepthExceeded) := by
  refine ⟨?_, ?_, ?_⟩
  · intro f d gid g cgd comp rest hlt hres hdata hcomps hself
    have hne : ¬ f.numGlyphs ≤ gid := Nat.not_le.mpr hlt
    simp only [resolveGlyph, hres, hdata, hcomps]
    rw [if_neg hne]
    simp only [resolveComponents]
    rw [if_pos hself]
  · intro f gid
    simp [resolveGlyph]
  · intro f g₁ g₂ ga gb c₁ c₂ h1 h2 hga hgad hc1 hgb hgbd hc2 hne d
    have hne1 : ¬ f.numGlyphs ≤ g₁ := Nat.not_le.mpr h1
    have hne2 : ¬ f.numGlyphs ≤ g₂ := Nat.not_le.mpr h2
    have hc1ne : ¬ c₁.glyphIndex = g₁ := by
      rw [hc1]; exact fun h => hne h.symm
    have hc2ne : ¬ c₂.glyphIndex = g₂ := by
      rw [hc2]; exact fun h => hne h
    have key : ∀ d : Nat,
        resolveGlyph f d g₁ = Except.error FormatError.recursionDepthExceeded
        ∧ resolveGlyph f d g₂ = Except.error FormatError.recursionDepthExceeded := by
      intro d
      induction d with
      | zero => constructor <;> simp [resolveGlyph]
      | succ d ih =>
        constructor
        · simp only [resolveGlyph, hga, hgad]
          rw [if_neg hne1]
          simp only [resolveComponents]
          rw [if_neg hc1ne]
          simp only [hc1, ih.2]
        · simp only [resolveGlyph, hgb, hgbd]
          rw [if_neg hne2]
          simp only [resolveComponents]
          rw [if_neg hc2ne]
          simp only [hc2, ih.1]
    exact (key d).1

/-- Witness for C7: the self-referencing compound glyph of `cycleFont` is
rejected at the standard depth budget. -/
theorem compound_resolution_depth_bounded_witness :
    resolveGlyph cycleFont 8 0 = Except.error FormatError.selfReferencingGlyph :=
  (compound_resolution_depth_bounded).1 cycleFont 7 0 selfRefGlyph
    ⟨[selfRefComponent]⟩ selfRefComponent [] (by decide) rfl rfl rfl rfl

/-! ## Claim C2: implied midpoints -/

/-- C2: for two consecutive off-curve points A and B the decoder's implied
on-curve point is exactly the midpoint `((Ax+Bx)/2, (Ay+By)/2)` — it is
inserted between A and B, carries the on-curve flag, and splits the pair into
two quadratic segments with A as the first control point and B as the
second. -/
theorem decoder_implied_midpoint_exact :
    (∀ p q : FPoint, midpointOf p q = ((p.x + q.x) / 2, (p.y + q.y) / 2))
    ∧ (∀ A B : FPoint, (impliedOn A B).x = (A.x + B.x) / 2
        ∧ (impliedOn A B).y = (A.y + B.y) / 2 ∧ (impliedOn A B).onCurve = true)
    ∧ (∀ (pre post : List FPoint) (A B : FPoint),
        A.onCurve = false → B.onCurve = false →
        ∃ pre2, insertImplied (pre ++ A :: B :: post)
          = pre2 ++ A :: impliedOn A B :: insertImplied (B :: post))
    ∧ (∀ (st : Rat × Rat) (A B C : FPoint) (rest : List FPoint),
        A.onCurve = false → B.onCurve = false → C.onCurve = true →
        emitSegments st (A :: impliedOn A B :: B :: C :: rest)
          = Stmt.quadraticCurveTo A.x A.y ((A.x + B.x) / 2) ((A.y + B.y) / 2)
            :: Stmt.quadraticCurveTo B.x B.y C.x C.y :: emitSegments st rest) := by
  refine ⟨fun p q => rfl, fun A B => ⟨rfl, rfl, rfl⟩, ?_, ?_⟩
  · intro pre post A B hA hB
    induction pre with
    | nil =>
      refine ⟨[], ?_⟩
      simp only [List.nil_append, insertImplied]
      rw [if_pos ⟨hA, hB⟩]
    | cons p pre ih =>
      obtain ⟨pre2, hpre2⟩ := ih
      cases hsplit : pre ++ A :: B :: post with
      | nil => exact absurd hsplit (by simp)
      | cons q tail =>
        rw [List.cons_append, hsplit]
        by_cases hb : p.onCurve = false ∧ q.onCurve = false
        · refine ⟨p :: impliedOn p q :: pre2, ?_⟩
          simp only [insertImplied]
          rw [if_pos hb, ← hsplit, hpre2]
          simp
        · refine ⟨p :: pre2, ?_⟩
          simp only [insertImplied]
          rw [if_neg hb, ← hsplit, hpre2]
          simp
  · intro st A B C rest hA hB hC
    simp [emitSegments, hA, hB, impliedOn]

/-- Witness for C2: a concrete off-off pair emits exactly the two quadratic
segments through the exact midpoint. -/
theorem decoder_implied_midpoint_exact_witness :
    emitSegments (0, 0)
        (⟨0, 0, false⟩ :: impliedOn ⟨0, 0, false⟩ ⟨4, 2, false⟩
          :: ⟨4, 2, false⟩ :: ⟨6, 6, true⟩ :: [])
      = Stmt.quadraticCurveTo 0 0 ((0 + 4) / 2) ((0 + 2) / 2)
        :: Stmt.quadraticCurveTo 4 2 6 6 :: emitSegments (0, 0) [] :=
  (decoder_implied_midpoint_exact).2.2.2 (0, 0) ⟨0, 0, false⟩ ⟨4, 2, false⟩
    ⟨6, 6, true⟩ [] rfl rfl rfl

/-! ## Claim C10: State::resize -/

/-- C10: `State::resize` with a positive new size updates only the size, the
config's width and height, the surface configuration and the feature
uniform's window dimensions, leaving every other field of the State
unchanged; with a zero dimension the whole State is left unchanged. -/
theorem resize_updates_only_display_fields (s : State) (n : PhysicalSize) :
    (0 < n.width → 0 < n.height →
      ((s.resize n).size = n
        ∧ (s.resize n).config.width = n.width
        ∧ (s.resize n).config.height = n.height
        ∧ (s.resize n).config.usage = s.config.usage
        ∧ (s.resize n).config.format = s.config.format
        ∧ (s.resize n).config.presentMode = s.config.presentMode
        ∧ (s.resize n).config.alphaMode = s.config.alphaMode
        ∧ (s.resize n).config.viewFormats = s.config.viewFormats
        ∧ (s.resize n).config.desiredMaximumFrameLatency
            = s.config.desiredMaximumFrameLatency
        ∧ (s.resize n).surface.configuredWith = some ((s.resize n).config)
        ∧ (s.resize n).feature_uniform.windowWidth = n.width
        ∧ (s.resize n).feature_uniform.windowHeight = n.height
        ∧ (s.resize n).feature_uniform.gamma = s.feature_uniform.gamma
        ∧ (s.resize n).feature_uniform.featureBits = s.feature_uniform.featureBits
        ∧ (s.resize n).device = s.device
        ∧ (s.resize n).queue = s.queue
        ∧ (s.resize n).image_render_pipeline = s.image_render_pipeline
        ∧ (s.resize n).vertex_buffer = s.vertex_buffer
        ∧ (s.resize n).index_buffer = s.index_buffer
        ∧ (s.resize n).num_indices = s.num_indices
        ∧ (s.resize n).diffuse_texture = s.diffuse_texture
        ∧ (s.resize n).diffuse_bind_group = s.diffuse_bind_group
        ∧ (s.resize n).window = s.window
        ∧ (s.resize n).feature_buffer = s.feature_buffer
        ∧ (s.resize n).feature_bind_group = s.feature_bind_group
        ∧ (s.resize n).draw_uniform = s.draw_uniform
        ∧ (s.resize n).draw_buffer = s.draw_buffer
        ∧ (s.resize n).draw_bind_group = s.draw_bind_group
        ∧ (s.resize n).mouse_state = s.mouse_state
        ∧ (s.resize n).shape_stack = s.shape_stack))
    ∧ ((n.width = 0 ∨ n.height = 0) → s.resize n = s) := by
  constructor
  · intro hw hh
    have hcond : 0 < n.width ∧ 0 < n.height := ⟨hw, hh⟩
    simp [State.resize, hcond, FeatureUniform.update_window_dimensions]
  · intro h0
    have hcond : ¬(0 < n.width ∧ 0 < n.height) := by
      rintro ⟨hw, hh⟩
      rcases h0 with h | h <;> omega
    simp [State.resize, hcond]

/-- Witness for C10: resizing the demo state to 100×50 sets its size. -/
theorem resize_updates_only_display_fields_witness :
    (demoState.resize ⟨100, 50⟩).size = ⟨100, 50⟩ :=
  ((resize_updates_only_display_fields demoState ⟨100, 50⟩).1
    (by decide) (by decide)).1

end Iris
